import Mathlib

/-! Marisol kernels: residuals and Jacobians.

Shallow embedding of the three finite-element kernels of the repository

* `src/kernels/PFFracBulkRateNobLimited.C`
* `src/kernels/NSMomentumInviscidFluxWithoutP.C`
* `src/kernels/PFFracIntVar.C`

Every kernel is a stateless callback evaluated at one quadrature point `_qp` for one
test function `_i` and one trial function `_j`.  The values the host framework hands to
the callback (`_u[_qp]`, `_phi[_j][_qp]`, material properties, parameters, ...) are the
fields of a record; each C++ member function is a function of that record.

`Real` of the source is an arbitrary linearly ordered field `α` (exact arithmetic), so
the definitions run on `ℚ` and the analytic statements are made at `α = ℝ`.  Division is
the division of the field.
-/

namespace MathUtils

/-- Modelled from the spec: `MathUtils::sign` belongs to the host framework and is not
under `src/`.  It is `+1` on positive and `-1` on negative arguments; its value at `0`
is the parameter `s0`. -/
def sign {α : Type} [LinearOrderedField α] (s0 x : α) : α :=
  if 0 < x then 1 else if x < 0 then -1 else s0

end MathUtils

namespace PFFracBulkRateNobLimited

/-- Data seen by `PFFracBulkRateNobLimited` at one quadrature point.  `u` is the damage
variable `c = _u[_qp]`, `phi` is `_phi[_j][_qp]`, `test` is `_test[_i][_qp]`, `grad_phi`
is `_grad_phi[_j][_qp]`.  `dG0_pos_dstrain = none` is the `NULL` pointer stored when the
parameter `dG0_dstrain_var` is not given.  `disp_var` is the vector `_disp_var`, of
length `_ndisp`.  `LIBMESH_DIM` (a macro of libMesh) and the value of
`MathUtils::sign` at `0` are parameters. -/
structure Kernel (α : Type) where
  l : α
  visco : α
  gc_prop : α
  G0_pos : α
  dG0_pos_dstrain : Option (Nat → Nat → α)
  disp_var : List Nat
  d2c_dx2 : α
  d2c_dy2 : α
  d2c_dz2 : α
  u : α
  phi : α
  grad_phi : Nat → α
  test : α
  LIBMESH_DIM : Nat
  sign0 : α

variable {α : Type} [LinearOrderedField α]

/-- The number `_ndisp` of coupled displacement components. -/
def Kernel.ndisp (q : Kernel α) : Nat := q.disp_var.length

/-- Lines 56-70. -/
def precomputeQpResidual (q : Kernel α) : α :=
  let gc := q.gc_prop
  let c := q.u
  let beta := q.d2c_dx2 + q.d2c_dy2 + q.d2c_dz2
  let x := q.l * beta + 2 * (1 - c) * q.G0_pos / gc - c / q.l
  if c ≤ 0 ∨ c ≥ 1 then
    0
  else
    -((|x| + x) / 2) / q.visco

/-- Lines 72-87. -/
def precomputeQpJacobian (q : Kernel α) : α :=
  let gc := q.gc_prop
  let c := q.u
  let beta := q.d2c_dx2 + q.d2c_dy2 + q.d2c_dz2
  let x := q.l * beta + 2 * (1 - c) * q.G0_pos / gc - c / q.l
  if c ≤ 0 ∨ c ≥ 1 then
    0
  else
    (MathUtils.sign q.sign0 x + 1) / 2 * (2 * q.G0_pos / gc + 1 / q.l) / q.visco * q.phi

/-- The loop of lines 107-116 from index `k` on, over the remaining entries of
`_disp_var`.  The state is `(c_comp, disp_flag)`.  `none` is the `return 0.0` of the
`else` branch, which leaves the function; `some st` is the state when the loop ends. -/
def dispLoop (jvar : Nat) : List Nat → Nat → Nat × Bool → Option (Nat × Bool)
  | [], _, st => some st
  | d :: ds, k, _ => if jvar = d then dispLoop jvar ds (k + 1) (k, true) else none

/-- The accumulation of `val` in lines 121-124. -/
def dispVal (T : Nat → Nat → α) (grad_phi : Nat → α) (c_comp dim : Nat) : α :=
  (List.range dim).foldl
    (fun val i => val + (T c_comp i + T i c_comp) / 2 * grad_phi i) 0

/-- Lines 89-135.  `c_comp` is not initialised in the source; it is read only when
`disp_flag` is set, after an assignment, so the initial `0` is never observed.  The
local `xfacbeta` of line 103 is never read and is left out. -/
def computeQpOffDiagJacobian (q : Kernel α) (jvar : Nat) : α :=
  let c := q.u
  let gc := q.gc_prop
  let beta := q.d2c_dx2 + q.d2c_dy2 + q.d2c_dz2
  let x := q.l * beta + 2 * (1 - c) * (q.G0_pos / gc) - c / q.l
  let signx := MathUtils.sign q.sign0 x
  let xfac := -((signx + 1) / 2) / q.visco * 2 * (1 - c) / gc
  match dispLoop jvar q.disp_var 0 (0, false) with
  | none => 0
  | some (c_comp, disp_flag) =>
    match disp_flag, q.dG0_pos_dstrain with
    | true, some T =>
      let val := dispVal T q.grad_phi c_comp q.LIBMESH_DIM
      if c ≤ 0 ∨ c ≥ 1 then
        0
      else
        xfac * val * q.test
    | _, _ => 0

/-- The Laplacian stand-in `beta` of the source, named for the statements. -/
def Kernel.beta (q : Kernel α) : α := q.d2c_dx2 + q.d2c_dy2 + q.d2c_dz2

/-- The driving force `x` of the source, named for the statements. -/
def Kernel.x (q : Kernel α) : α :=
  q.l * q.beta + 2 * (1 - q.u) * q.G0_pos / q.gc_prop - q.u / q.l

/-- The kernel with its damage variable replaced by `c`. -/
def Kernel.withU (q : Kernel α) (c : α) : Kernel α := { q with u := c }

/-- The displacement contribution as the specification writes it, for the displacement
component `k` and the tensor `T = dG0_dstrain`: `xfac * val * test_i` with
`xfac = -((sign(x) + 1)/2) / visco * 2*(1-c)/gc` and
`val = sum over i < LIBMESH_DIM of (T(k,i) + T(i,k))/2 * grad_phi_j(i)`. -/
def specDispJacobian (q : Kernel α) (T : Nat → Nat → α) (k : Nat) : α :=
  let xfac := -((MathUtils.sign q.sign0 q.x + 1) / 2) / q.visco * 2 * (1 - q.u) / q.gc_prop
  let val := ((List.range q.LIBMESH_DIM).map
    fun i => (T k i + T i k) / 2 * q.grad_phi i).sum
  xfac * val * q.test

/-- A kernel used to evaluate the definitions: `l = visco = gc = G0 = 1`,
`beta = 0`, so that `x = 2 - 3*c`; displacement variables `disp`, the identity tensor as
`dG0_dstrain`, `grad_phi_j = (1, 1, 1)`, `phi_j = test_i = 1` and `LIBMESH_DIM = 3`. -/
def sampleKernel (α : Type) [LinearOrderedField α] (c s0 : α) (disp : List Nat) : Kernel α where
  l := 1
  visco := 1
  gc_prop := 1
  G0_pos := 1
  dG0_pos_dstrain := some fun i j => if i = j then 1 else 0
  disp_var := disp
  d2c_dx2 := 0
  d2c_dy2 := 0
  d2c_dz2 := 0
  u := c
  phi := 1
  grad_phi := fun _ => 1
  test := 1
  LIBMESH_DIM := 3
  sign0 := s0

end PFFracBulkRateNobLimited

namespace libMesh

/-- Modelled from the spec: libMesh's `RealVectorValue` (three real coordinates) is not
under `src/`. -/
structure RealVectorValue (α : Type) where
  x : α
  y : α
  z : α

variable {α : Type} [LinearOrderedField α]

/-- Modelled from the spec: `operator()(i)`, the coordinate number `i` of a vector, not
under `src/`.  libMesh defines it for `i < 3` only; the value `0` given here to any
other index is never used by a statement below. -/
def RealVectorValue.coord (v : RealVectorValue α) : Nat → α
  | 0 => v.x
  | 1 => v.y
  | 2 => v.z
  | _ => 0

/-- Modelled from the spec: `operator*` between two vectors, the dot product, not under
`src/`. -/
def RealVectorValue.dot (a b : RealVectorValue α) : α :=
  a.x * b.x + a.y * b.y + a.z * b.z

/-- Modelled from the spec: `norm_sq()`, the squared Euclidean norm, not under `src/`. -/
def RealVectorValue.norm_sq (v : RealVectorValue α) : α :=
  v.x * v.x + v.y * v.y + v.z * v.z

end libMesh

namespace NSMomentumInviscidFluxWithoutP

open libMesh

/-- Data seen by `NSMomentumInviscidFluxWithoutP` at one quadrature point.  `u` is the
momentum component `_u[_qp]`, `u_vel`, `v_vel`, `w_vel` the coupled velocities,
`grad_test` is `_grad_test[_i][_qp]`, `phi` is `_phi[_j][_qp]`, `gamma` is
`_fp.gamma()`, `component` the parameter of that name and `mapVarNumber` the variable
renumbering of the base class `NSKernel`. -/
structure Kernel (α : Type) where
  u : α
  u_vel : α
  v_vel : α
  w_vel : α
  grad_test : RealVectorValue α
  phi : α
  gamma : α
  component : Nat
  mapVarNumber : Nat → Nat

variable {α : Type} [LinearOrderedField α]

/-- Lines 31-46. -/
def computeQpResidual (q : Kernel α) : α :=
  let vec : RealVectorValue α := ⟨q.u * q.u_vel, q.u * q.v_vel, q.u * q.w_vel⟩;
  -(vec.dot q.grad_test)

/-- Lines 65-101.  `none` is the call of `mooseError`, which does not return.  The
literal `0.5` of the source is written `1 / 2`. -/
def computeJacobianHelper (q : Kernel α) (m : Nat) : Option α :=
  let vel : RealVectorValue α := ⟨q.u_vel, q.v_vel, q.w_vel⟩
  let gam := q.gamma
  match m with
  | 0 =>
    let V2 := vel.norm_sq
    some (vel.coord q.component * (vel.dot q.grad_test)
      - 1 / 2 * (gam - 1) * V2 * q.grad_test.coord q.component)
  | 1 | 2 | 3 =>
    let m_local := m - 1
    let delta_kl : α := if q.component = m_local then 1 else 0
    some (-1 * (vel.coord q.component * q.grad_test.coord m_local
                + delta_kl * (vel.dot q.grad_test)
                + (1 - gam) * vel.coord m_local * q.grad_test.coord q.component) * q.phi)
  | 4 => some (-1 * (gam - 1) * q.phi * q.grad_test.coord q.component)
  | _ => none

/-- Lines 48-53.  The sum `_component + 1` is taken in `unsigned int`. -/
def computeQpJacobian (q : Kernel α) : Option α :=
  computeJacobianHelper q ((q.component + 1) % 2 ^ 32)

/-- Lines 55-63. -/
def computeQpOffDiagJacobian (q : Kernel α) (jvar : Nat) : Option α :=
  let m := q.mapVarNumber jvar
  computeJacobianHelper q m

/-- The velocity vector `vel` built in line 68, named for the statements. -/
def Kernel.vel (q : Kernel α) : RealVectorValue α := ⟨q.u_vel, q.v_vel, q.w_vel⟩

/-- The momentum vector `(U_1, U_2, U_3)` of a conserved state
`U = (rho, rho*u1, rho*u2, rho*u3, E)`. -/
def momentum (U : Nat → α) : RealVectorValue α := ⟨U 1, U 2, U 3⟩

/-- The velocity vector `(U_1, U_2, U_3) / rho` of a conserved state. -/
def velocity (U : Nat → α) : RealVectorValue α := ⟨U 1 / U 0, U 2 / U 0, U 3 / U 0⟩

/-- The kernel data of component `k` at the conserved state `U`: the kernel's variable is
`U_(k+1)` and the coupled velocities are `U_1/rho`, `U_2/rho`, `U_3/rho`. -/
def ofConserved (U : Nat → α) (k : Nat) (gamma : α) (g : RealVectorValue α) (phi : α)
    (mapVarNumber : Nat → Nat) : Kernel α where
  u := U (k + 1)
  u_vel := U 1 / U 0
  v_vel := U 2 / U 0
  w_vel := U 3 / U 0
  grad_test := g
  phi := phi
  gamma := gamma
  component := k
  mapVarNumber := mapVarNumber

/-- The pressure-free residual in conserved variables, as the specification writes it:
`R(U) = -(U_(k+1)/rho) * ((U_1, U_2, U_3) . g)`. -/
def specResidual (k : Nat) (g : RealVectorValue α) (U : Nat → α) : α :=
  -(U (k + 1) / U 0) * (momentum U).dot g

/-- The ideal-gas pressure, as the specification writes it:
`P(U) = (gamma - 1) * (U_4 - (U_1^2 + U_2^2 + U_3^2) / (2*rho))`. -/
def specPressure (gamma : α) (U : Nat → α) : α :=
  (gamma - 1) * (U 4 - (U 1 ^ 2 + U 2 ^ 2 + U 3 ^ 2) / (2 * U 0))

/-- The full inviscid momentum flux residual, as the specification writes it:
`R_full(U) = -((U_(k+1)/rho) * ((U_1, U_2, U_3) . g) + P(U) * g_k)`. -/
def specFullResidual (gamma : α) (k : Nat) (g : RealVectorValue α) (U : Nat → α) : α :=
  -((U (k + 1) / U 0) * (momentum U).dot g + specPressure gamma U * g.coord k)

/-- A conserved state used to evaluate the kernel: `rho = 2`, momentum `(2, 4, 6)`,
energy `5`. -/
def sampleState (α : Type) [LinearOrderedField α] : Nat → α
  | 0 => 2
  | 1 => 2
  | 2 => 4
  | 3 => 6
  | 4 => 5
  | _ => 0

/-- A kernel used to evaluate the definitions: component `k` at `sampleState`, with
`gamma = 7/5`, test gradient `(1, 2, 3)` and `phi_j = phi`. -/
def sampleKernel (α : Type) [LinearOrderedField α] (k : Nat) (phi : α) : Kernel α :=
  ofConserved (sampleState α) k (7 / 5) ⟨1, 2, 3⟩ phi id

end NSMomentumInviscidFluxWithoutP

namespace PFFracIntVar

/-- Data seen by `PFFracIntVar` at one quadrature point: `u` is `_u[_qp]` and `phi` is
`_phi[_j][_qp]`. -/
structure Kernel (α : Type) where
  u : α
  phi : α

variable {α : Type} [LinearOrderedField α]

/-- Lines 25-30. -/
def precomputeQpResidual (q : Kernel α) : α :=
  q.u

/-- Lines 32-37. -/
def precomputeQpJacobian (q : Kernel α) : α :=
  let val : α := 1
  val * q.phi

end PFFracIntVar

/-! ## Theorems -/

namespace PFFracBulkRateNobLimited

variable {α : Type} [LinearOrderedField α]

/-- The expression `(|x| + x) / 2` of the source is the positive part of `x`. -/
theorem abs_add_self_half (x : α) : (|x| + x) / 2 = max x 0 := by
  rcases le_total 0 x with h | h
  · rw [abs_of_nonneg h, max_eq_left h]; ring
  · rw [abs_of_nonpos h, max_eq_right h]; ring

/-- C1: with `beta = d2c_dx2 + d2c_dy2 + d2c_dz2` and
`x = l*beta + 2*(1-c)*G0/gc - c/l`, `precomputeQpResidual` returns `0` when `c ≤ 0` or
`c ≥ 1` and `-max(x, 0)/visco` otherwise, for every input; the `(|x| + x)/2` of the
code is the positive part of `x`. -/
theorem precomputeQpResidual_spec (q : Kernel α) :
    precomputeQpResidual q =
        (if q.u ≤ 0 ∨ q.u ≥ 1 then 0
         else -(max (q.l * (q.d2c_dx2 + q.d2c_dy2 + q.d2c_dz2)
                      + 2 * (1 - q.u) * q.G0_pos / q.gc_prop - q.u / q.l) 0) / q.visco)
      ∧ ∀ x : α, (|x| + x) / 2 = max x 0 := by
  refine ⟨?_, abs_add_self_half⟩
  simp only [precomputeQpResidual, abs_add_self_half]

/-- The residual in terms of the named driving force `Kernel.x`. -/
theorem precomputeQpResidual_eq (q : Kernel α) :
    precomputeQpResidual q =
      if q.u ≤ 0 ∨ q.u ≥ 1 then 0 else -(max q.x 0) / q.visco := by
  simp only [precomputeQpResidual, abs_add_self_half, Kernel.x, Kernel.beta]

/-- The diagonal Jacobian in terms of the named driving force `Kernel.x`. -/
theorem precomputeQpJacobian_eq (q : Kernel α) :
    precomputeQpJacobian q =
      if q.u ≤ 0 ∨ q.u ≥ 1 then 0
      else (MathUtils.sign q.sign0 q.x + 1) / 2 * (2 * q.G0_pos / q.gc_prop + 1 / q.l)
            / q.visco * q.phi := by
  simp only [precomputeQpJacobian, Kernel.x, Kernel.beta]

/-- The driving force is affine in the damage variable, with slope
`-(2*G0/gc + 1/l)`. -/
theorem x_withU (q : Kernel α) (c : α) :
    (q.withU c).x = q.x - (c - q.u) * (2 * q.G0_pos / q.gc_prop + 1 / q.l) := by
  simp only [Kernel.x, Kernel.beta, Kernel.withU]
  ring

/-- Replacing the damage variable by itself changes nothing. -/
theorem x_withU_self (q : Kernel α) : (q.withU q.u).x = q.x := by
  rw [x_withU]; ring

/-- Inside the clamp `0 < c < 1` the residual is `-max(x, 0)/visco`, for every damage
value near the current one. -/
theorem residual_withU_eventually (q : Kernel ℝ) (hc0 : 0 < q.u) (hc1 : q.u < 1) :
    ∀ᶠ c in nhds q.u,
      precomputeQpResidual (q.withU c) = -(max (q.withU c).x 0) / q.visco := by
  filter_upwards [Ioo_mem_nhds hc0 hc1] with c hc
  have hclamp : ¬ ((q.withU c).u ≤ 0 ∨ (q.withU c).u ≥ 1) := by
    simp only [Kernel.withU]
    push_neg
    exact ⟨hc.1, hc.2⟩
  rw [precomputeQpResidual_eq, if_neg hclamp]
  rfl

/-- The driving force is a continuous function of the damage variable. -/
theorem continuous_x_withU (q : Kernel ℝ) : Continuous fun c => (q.withU c).x := by
  simp only [x_withU]
  fun_prop

/-- Derivative of the affine branch `c ↦ -x(c)/visco` of the residual. -/
theorem hasDerivAt_neg_x_div (q : Kernel ℝ) :
    HasDerivAt (fun c => -(q.withU c).x / q.visco)
      ((2 * q.G0_pos / q.gc_prop + 1 / q.l) / q.visco) q.u := by
  simp only [x_withU]
  have h1 : HasDerivAt (fun c : ℝ => c - q.u) 1 q.u := (hasDerivAt_id q.u).sub_const _
  have h2 := (((h1.mul_const (2 * q.G0_pos / q.gc_prop + 1 / q.l)).const_sub q.x).neg).div_const
    q.visco
  convert h2 using 1
  ring

/-- Where the driving force is positive the residual has derivative
`(2*G0/gc + 1/l)/visco` with respect to the damage variable. -/
theorem residual_hasDerivAt_of_pos (q : Kernel ℝ) (hc0 : 0 < q.u) (hc1 : q.u < 1)
    (hx : 0 < q.x) :
    HasDerivAt (fun c => precomputeQpResidual (q.withU c))
      ((2 * q.G0_pos / q.gc_prop + 1 / q.l) / q.visco) q.u := by
  refine (hasDerivAt_neg_x_div q).congr_of_eventuallyEq ?_
  have hpos : ∀ᶠ c in nhds q.u, 0 < (q.withU c).x :=
    (continuous_x_withU q).continuousAt.eventually
      (Ioi_mem_nhds (by simpa only [x_withU_self] using hx))
  filter_upwards [residual_withU_eventually q hc0 hc1, hpos] with c h1 h2
  rw [h1, max_eq_left h2.le]

/-- Where the driving force is negative the residual is locally `0`. -/
theorem residual_hasDerivAt_of_neg (q : Kernel ℝ) (hc0 : 0 < q.u) (hc1 : q.u < 1)
    (hx : q.x < 0) :
    HasDerivAt (fun c => precomputeQpResidual (q.withU c)) 0 q.u := by
  refine (hasDerivAt_const q.u (0 : ℝ)).congr_of_eventuallyEq ?_
  have hneg : ∀ᶠ c in nhds q.u, (q.withU c).x < 0 :=
    (continuous_x_withU q).continuousAt.eventually
      (Iio_mem_nhds (by simpa only [x_withU_self] using hx))
  filter_upwards [residual_withU_eventually q hc0 hc1, hneg] with c h1 h2
  rw [h1, max_eq_right h2.le]
  simp

/-- C2: for `0 < c < 1`, `gc ≠ 0`, `l ≠ 0`, `visco ≠ 0` and `x ≠ 0`,
`precomputeQpJacobian` is the derivative of `precomputeQpResidual` with respect to the
damage variable `c`, times `phi_j`: `(2*G0/gc + 1/l)/visco * phi_j` when `x > 0` and `0`
when `x < 0`. -/
theorem precomputeQpJacobian_is_derivative (q : Kernel ℝ) (hc0 : 0 < q.u) (hc1 : q.u < 1)
    (_hgc : q.gc_prop ≠ 0) (_hl : q.l ≠ 0) (_hv : q.visco ≠ 0) (hx : q.x ≠ 0) :
    (∃ D, HasDerivAt (fun c => precomputeQpResidual (q.withU c)) D q.u
        ∧ precomputeQpJacobian q = D * q.phi)
      ∧ (0 < q.x →
          precomputeQpJacobian q = (2 * q.G0_pos / q.gc_prop + 1 / q.l) / q.visco * q.phi)
      ∧ (q.x < 0 → precomputeQpJacobian q = 0) := by
  have hclamp : ¬ (q.u ≤ 0 ∨ q.u ≥ 1) := by
    push_neg
    exact ⟨hc0, hc1⟩
  have hpos : 0 < q.x →
      precomputeQpJacobian q = (2 * q.G0_pos / q.gc_prop + 1 / q.l) / q.visco * q.phi := by
    intro h
    rw [precomputeQpJacobian_eq, if_neg hclamp, MathUtils.sign, if_pos h]
    ring
  have hneg : q.x < 0 → precomputeQpJacobian q = 0 := by
    intro h
    rw [precomputeQpJacobian_eq, if_neg hclamp, MathUtils.sign, if_neg (not_lt.mpr h.le),
      if_pos h]
    ring
  refine ⟨?_, hpos, hneg⟩
  rcases lt_or_gt_of_ne hx with h | h
  · exact ⟨0, residual_hasDerivAt_of_neg q hc0 hc1 h, by rw [hneg h]; ring⟩
  · exact ⟨_, residual_hasDerivAt_of_pos q hc0 hc1 h, hpos h⟩

/-- A convex combination of `0` and `a` lies between the two, in either order. -/
theorem mul_mem_uIcc_zero (t a : ℝ) (h0 : 0 ≤ t) (h1 : t ≤ 1) :
    t * a ∈ Set.uIcc a 0 ∧ t * a ∈ Set.uIcc 0 a := by
  rw [Set.mem_uIcc, Set.mem_uIcc]
  rcases le_total 0 a with ha | ha
  · exact ⟨Or.inr ⟨by nlinarith, by nlinarith⟩, Or.inl ⟨by nlinarith, by nlinarith⟩⟩
  · exact ⟨Or.inl ⟨by nlinarith, by nlinarith⟩, Or.inr ⟨by nlinarith, by nlinarith⟩⟩

/-- At a kink (`x = 0`) the residual has left derivative `max(κ, 0)/visco` with respect
to the damage variable, `κ = 2*G0/gc + 1/l`. -/
theorem residual_hasDerivWithinAt_left (q : Kernel ℝ) (hc0 : 0 < q.u) (hc1 : q.u < 1)
    (hx : q.x = 0) :
    HasDerivWithinAt (fun c => precomputeQpResidual (q.withU c))
      (max (2 * q.G0_pos / q.gc_prop + 1 / q.l) 0 / q.visco) (Set.Iic q.u) q.u := by
  have hlin : HasDerivWithinAt
      (fun c : ℝ => -((q.u - c) * max (2 * q.G0_pos / q.gc_prop + 1 / q.l) 0) / q.visco)
      (max (2 * q.G0_pos / q.gc_prop + 1 / q.l) 0 / q.visco) (Set.Iic q.u) q.u := by
    have h1 : HasDerivAt (fun c : ℝ => q.u - c) (-1) q.u := (hasDerivAt_id q.u).const_sub _
    have h2 := (((h1.mul_const (max (2 * q.G0_pos / q.gc_prop + 1 / q.l) 0)).neg).div_const
      q.visco).hasDerivWithinAt (s := Set.Iic q.u)
    convert h2 using 1
    ring
  refine hlin.congr_of_eventuallyEq ?_ ?_
  · filter_upwards [eventually_nhdsWithin_of_eventually_nhds
      (residual_withU_eventually q hc0 hc1), self_mem_nhdsWithin] with c h1 h2
    have hle : 0 ≤ q.u - c := sub_nonneg.mpr h2
    rw [h1, x_withU, hx, mul_max_of_nonneg _ _ hle]
    congr 2
    ring_nf
  · have hclamp : ¬ ((q.withU q.u).u ≤ 0 ∨ (q.withU q.u).u ≥ 1) := by
      simp only [Kernel.withU]
      push_neg
      exact ⟨hc0, hc1⟩
    rw [precomputeQpResidual_eq, if_neg hclamp, x_withU_self, hx]
    simp

/-- At a kink (`x = 0`) the residual has right derivative `min(κ, 0)/visco` with respect
to the damage variable, `κ = 2*G0/gc + 1/l`. -/
theorem residual_hasDerivWithinAt_right (q : Kernel ℝ) (hc0 : 0 < q.u) (hc1 : q.u < 1)
    (hx : q.x = 0) :
    HasDerivWithinAt (fun c => precomputeQpResidual (q.withU c))
      (min (2 * q.G0_pos / q.gc_prop + 1 / q.l) 0 / q.visco) (Set.Ici q.u) q.u := by
  have hmin : min (2 * q.G0_pos / q.gc_prop + 1 / q.l) 0
      = -max (-(2 * q.G0_pos / q.gc_prop + 1 / q.l)) 0 := by
    rw [← neg_zero, max_neg_neg, neg_neg, neg_zero]
  have hlin : HasDerivWithinAt
      (fun c : ℝ => -((c - q.u) * max (-(2 * q.G0_pos / q.gc_prop + 1 / q.l)) 0) / q.visco)
      (min (2 * q.G0_pos / q.gc_prop + 1 / q.l) 0 / q.visco) (Set.Ici q.u) q.u := by
    have h1 : HasDerivAt (fun c : ℝ => c - q.u) 1 q.u := (hasDerivAt_id q.u).sub_const _
    have h2 := (((h1.mul_const (max (-(2 * q.G0_pos / q.gc_prop + 1 / q.l)) 0)).neg).div_const
      q.visco).hasDerivWithinAt (s := Set.Ici q.u)
    rw [hmin]
    convert h2 using 1
    ring
  refine hlin.congr_of_eventuallyEq ?_ ?_
  · filter_upwards [eventually_nhdsWithin_of_eventually_nhds
      (residual_withU_eventually q hc0 hc1), self_mem_nhdsWithin] with c h1 h2
    have hle : 0 ≤ c - q.u := sub_nonneg.mpr h2
    rw [h1, x_withU, hx, mul_max_of_nonneg _ _ hle]
    congr 2
    ring_nf
  · have hclamp : ¬ ((q.withU q.u).u ≤ 0 ∨ (q.withU q.u).u ≥ 1) := by
      simp only [Kernel.withU]
      push_neg
      exact ⟨hc0, hc1⟩
    rw [precomputeQpResidual_eq, if_neg hclamp, x_withU_self, hx]
    simp

/-- C3: at the kink of the driving force (`0 < c < 1`, `x = 0`), whatever value in
`{-1, 0, 1}` the host's `sign` takes at `0`, `precomputeQpJacobian` returns
`t * (2*G0/gc + 1/l)/visco * phi_j` for some `t ∈ [0, 1]`, and this value lies between
the left and the right derivative of `precomputeQpResidual` with respect to `c`, each
times `phi_j`. -/
theorem precomputeQpJacobian_subgradient (q : Kernel ℝ) (hc0 : 0 < q.u) (hc1 : q.u < 1)
    (hx : q.x = 0) (hs : q.sign0 = -1 ∨ q.sign0 = 0 ∨ q.sign0 = 1) :
    (∃ t : ℝ, 0 ≤ t ∧ t ≤ 1 ∧
        precomputeQpJacobian q
          = t * (2 * q.G0_pos / q.gc_prop + 1 / q.l) / q.visco * q.phi)
      ∧ ∃ DL DR : ℝ,
          HasDerivWithinAt (fun c => precomputeQpResidual (q.withU c)) DL (Set.Iic q.u) q.u
          ∧ HasDerivWithinAt (fun c => precomputeQpResidual (q.withU c)) DR (Set.Ici q.u) q.u
          ∧ precomputeQpJacobian q ∈ Set.uIcc (DL * q.phi) (DR * q.phi) := by
  have hclamp : ¬ (q.u ≤ 0 ∨ q.u ≥ 1) := by
    push_neg
    exact ⟨hc0, hc1⟩
  have hjac : precomputeQpJacobian q
      = (q.sign0 + 1) / 2 * ((2 * q.G0_pos / q.gc_prop + 1 / q.l) / q.visco * q.phi) := by
    rw [precomputeQpJacobian_eq, if_neg hclamp, MathUtils.sign, hx, if_neg (lt_irrefl _),
      if_neg (lt_irrefl _)]
    ring
  have ht0 : 0 ≤ (q.sign0 + 1) / 2 := by
    rcases hs with h | h | h <;> rw [h] <;> norm_num
  have ht1 : (q.sign0 + 1) / 2 ≤ 1 := by
    rcases hs with h | h | h <;> rw [h] <;> norm_num
  refine ⟨⟨(q.sign0 + 1) / 2, ht0, ht1, by rw [hjac]; ring⟩, _, _,
    residual_hasDerivWithinAt_left q hc0 hc1 hx,
    residual_hasDerivWithinAt_right q hc0 hc1 hx, ?_⟩
  rw [hjac]
  rcases le_total 0 (2 * q.G0_pos / q.gc_prop + 1 / q.l) with hk | hk
  · rw [max_eq_left hk, min_eq_right hk, zero_div, zero_mul]
    exact (mul_mem_uIcc_zero _ _ ht0 ht1).1
  · rw [max_eq_right hk, min_eq_left hk, zero_div, zero_mul]
    exact (mul_mem_uIcc_zero _ _ ht0 ht1).2

end PFFracBulkRateNobLimited

namespace NSMomentumInviscidFluxWithoutP

open libMesh

variable {α : Type} [LinearOrderedField α]

/-- C4: `computeQpResidual` returns `-(U_k*u1*g1 + U_k*u2*g2 + U_k*u3*g3)`, that is
`-U_k * (u . g)`, for every input; the value is the same for every `gamma` and every
component index (pressure is no input of the kernel at all); and when `U_k = rho*u_k` it
is `-((rho*u) * u_k) . g`. -/
theorem computeQpResidual_spec (q : Kernel α) :
    computeQpResidual q
        = -(q.u * q.u_vel * q.grad_test.x + q.u * q.v_vel * q.grad_test.y
            + q.u * q.w_vel * q.grad_test.z)
      ∧ computeQpResidual q = -q.u * (q.vel.dot q.grad_test)
      ∧ (∀ (gamma : α) (component : Nat),
          computeQpResidual { q with gamma := gamma, component := component }
            = computeQpResidual q)
      ∧ ∀ rho u_k : α, q.u = rho * u_k →
          computeQpResidual q
            = -((⟨rho * q.u_vel * u_k, rho * q.v_vel * u_k, rho * q.w_vel * u_k⟩ :
                  RealVectorValue α).dot q.grad_test) := by
  refine ⟨?_, ?_, ?_, ?_⟩
  · simp only [computeQpResidual, RealVectorValue.dot]
  · simp only [computeQpResidual, RealVectorValue.dot, Kernel.vel]
    ring
  · intro gamma component
    simp only [computeQpResidual]
  · intro rho u_k h
    simp only [computeQpResidual, RealVectorValue.dot, h]
    ring

/-- The helper at the three momentum indices, with `m_local = m - 1`. -/
theorem computeJacobianHelper_momentum (q : Kernel α) (m : Nat) (h1 : 1 ≤ m) (h3 : m ≤ 3) :
    computeJacobianHelper q m
      = some (-1 * (q.vel.coord q.component * q.grad_test.coord (m - 1)
                + (if q.component = m - 1 then 1 else 0) * (q.vel.dot q.grad_test)
                + (1 - q.gamma) * q.vel.coord (m - 1) * q.grad_test.coord q.component)
              * q.phi) := by
  interval_cases m <;> rfl

/-- C6: for a component `k` in `{0,1,2}`, `computeQpJacobian` is the helper at variable
number `k + 1`, where the Kronecker delta is `1`, and equals
`-((2 - gamma)*u_k*g_k + (u . g)) * phi_j`; at a momentum index `m` in `{1,2,3}` with
`m - 1 ≠ k` the helper returns `-(u_k*g_(m-1) + (1 - gamma)*u_(m-1)*g_k) * phi_j`. -/
theorem computeQpJacobian_diag (q : Kernel α) (hk : q.component < 3) :
    computeQpJacobian q = computeJacobianHelper q (q.component + 1)
      ∧ computeJacobianHelper q (q.component + 1)
          = some (-((2 - q.gamma) * q.vel.coord q.component * q.grad_test.coord q.component
                    + q.vel.dot q.grad_test) * q.phi)
      ∧ ∀ m : Nat, 1 ≤ m → m ≤ 3 → m - 1 ≠ q.component →
          computeJacobianHelper q m
            = some (-(q.vel.coord q.component * q.grad_test.coord (m - 1)
                      + (1 - q.gamma) * q.vel.coord (m - 1)
                          * q.grad_test.coord q.component) * q.phi) := by
  refine ⟨?_, ?_, ?_⟩
  · have h : (q.component + 1) % 2 ^ 32 = q.component + 1 :=
      Nat.mod_eq_of_lt (by omega)
    rw [computeQpJacobian, h]
  · rw [computeJacobianHelper_momentum q _ (by omega) (by omega), Nat.add_sub_cancel,
      if_pos rfl]
    congr 1
    ring
  · intro m h1 h3 hne
    rw [computeJacobianHelper_momentum q m h1 h3, if_neg (Ne.symm hne)]
    congr 1
    ring

/-- C8: `computeJacobianHelper m` reaches `mooseError` exactly when `m > 4` and returns
a value for every `m` in `{0,...,4}`; for a component in `{0,1,2}`, `computeQpJacobian`
returns a value. -/
theorem computeJacobianHelper_error_iff (q : Kernel α) :
    (∀ m : Nat, computeJacobianHelper q m = none ↔ 4 < m)
      ∧ (∀ m : Nat, m ≤ 4 → ∃ v, computeJacobianHelper q m = some v)
      ∧ (q.component < 3 → ∃ v, computeQpJacobian q = some v) := by
  have hiff : ∀ m : Nat, computeJacobianHelper q m = none ↔ 4 < m := by
    intro m
    rcases m with _ | _ | _ | _ | _ | n <;> simp [computeJacobianHelper]
  have hsome : ∀ m : Nat, m ≤ 4 → ∃ v, computeJacobianHelper q m = some v := by
    intro m hm
    rcases h : computeJacobianHelper q m with _ | v
    · exact absurd ((hiff m).mp h) (by omega)
    · exact ⟨v, rfl⟩
  refine ⟨hiff, hsome, fun hk => ?_⟩
  have h : (q.component + 1) % 2 ^ 32 = q.component + 1 :=
    Nat.mod_eq_of_lt (by omega)
  rw [computeQpJacobian, h]
  exact hsome _ (by omega)

end NSMomentumInviscidFluxWithoutP

namespace PFFracIntVar

/-- C9: `precomputeQpResidual` returns the variable value `u` and
`precomputeQpJacobian` returns `phi_j`, which is the derivative of the residual with
respect to `u`, namely `1`, times `phi_j`, and does not depend on `u`. -/
theorem residual_and_jacobian (q : Kernel ℝ) :
    precomputeQpResidual q = q.u
      ∧ precomputeQpJacobian q = q.phi
      ∧ HasDerivAt (fun u => precomputeQpResidual { q with u := u }) 1 q.u
      ∧ precomputeQpJacobian q = 1 * q.phi
      ∧ ∀ u : ℝ, precomputeQpJacobian { q with u := u } = precomputeQpJacobian q := by
  refine ⟨rfl, ?_, ?_, rfl, fun _ => rfl⟩
  · simp only [precomputeQpJacobian, one_mul]
  · simpa only [precomputeQpResidual] using hasDerivAt_id q.u

end PFFracIntVar

namespace NSMomentumInviscidFluxWithoutP

open libMesh

/-- Each conserved variable is differentiable in the variable `U_m`, with derivative the
Kronecker delta. -/
theorem hasDerivAt_update (U : Nat → ℝ) (m i : Nat) :
    HasDerivAt (fun t => Function.update U m t i) (if i = m then 1 else 0) (U m) := by
  by_cases h : i = m
  · subst h
    simp only [Function.update_same, if_true]
    exact hasDerivAt_id _
  · simp only [Function.update_noteq h, if_neg h]
    exact hasDerivAt_const _ _

/-- The partial derivative of the full inviscid flux residual with respect to `U_m`. -/
theorem specFullResidual_hasDerivAt (U : Nat → ℝ) (gamma : ℝ) (g : RealVectorValue ℝ)
    (k m : Nat) (hrho : U 0 ≠ 0) :
    HasDerivAt (fun t => specFullResidual gamma k g (Function.update U m t))
      (-((((if k + 1 = m then 1 else 0) * U 0 - U (k + 1) * (if 0 = m then 1 else 0))
              / U 0 ^ 2 * (momentum U).dot g
            + U (k + 1) / U 0
              * ((if 1 = m then 1 else 0) * g.x + (if 2 = m then 1 else 0) * g.y
                  + (if 3 = m then 1 else 0) * g.z))
          + (gamma - 1)
              * ((if 4 = m then 1 else 0)
                  - ((2 * U 1 * (if 1 = m then 1 else 0) + 2 * U 2 * (if 2 = m then 1 else 0)
                        + 2 * U 3 * (if 3 = m then 1 else 0)) * (2 * U 0)
                      - (U 1 ^ 2 + U 2 ^ 2 + U 3 ^ 2) * (2 * (if 0 = m then 1 else 0)))
                    / (2 * U 0) ^ 2)
              * g.coord k))
      (U m) := by
  have h0 := hasDerivAt_update U m 0
  have h1 := hasDerivAt_update U m 1
  have h2 := hasDerivAt_update U m 2
  have h3 := hasDerivAt_update U m 3
  have h4 := hasDerivAt_update U m 4
  have hk := hasDerivAt_update U m (k + 1)
  have hne : Function.update U m (U m) 0 ≠ 0 := by
    rw [Function.update_eq_self]
    exact hrho
  have hne2 : 2 * Function.update U m (U m) 0 ≠ 0 := mul_ne_zero two_ne_zero hne
  have hdot := ((h1.mul_const g.x).add (h2.mul_const g.y)).add (h3.mul_const g.z)
  have hA := (hk.div h0 hne).mul hdot
  have hsq := ((h1.pow 2).add (h2.pow 2)).add (h3.pow 2)
  have hP := (((h4.sub (hsq.div (h0.const_mul 2) hne2)).const_mul (gamma - 1)).mul_const
    (g.coord k))
  have hR := (hA.add hP).neg
  convert hR using 1
  simp only [Function.update_eq_self, momentum, RealVectorValue.dot]
  ring

/-- The helper at the energy index. -/
theorem computeJacobianHelper_energy {α : Type} [LinearOrderedField α] (q : Kernel α) :
    computeJacobianHelper q 4
      = some (-1 * (q.gamma - 1) * q.phi * q.grad_test.coord q.component) :=
  rfl

/-- The coordinates of the velocity are the momentum variables over the density. -/
theorem coord_velocity {α : Type} [LinearOrderedField α] (U : Nat → α) (k : Nat) (hk : k < 3) :
    (velocity U).coord k = U (k + 1) / U 0 := by
  interval_cases k <;> rfl

/-- The partial derivative of the full residual with respect to a momentum or energy
variable, simplified. -/
theorem specFullResidual_hasDerivAt_pos (U : Nat → ℝ) (gamma : ℝ) (g : RealVectorValue ℝ)
    (k m : Nat) (hm : 1 ≤ m) (hrho : U 0 ≠ 0) :
    HasDerivAt (fun t => specFullResidual gamma k g (Function.update U m t))
      (-((if k + 1 = m then 1 else 0) * ((velocity U).dot g)
          + U (k + 1) / U 0
              * ((if 1 = m then 1 else 0) * g.x + (if 2 = m then 1 else 0) * g.y
                  + (if 3 = m then 1 else 0) * g.z)
          + (gamma - 1)
              * ((if 4 = m then 1 else 0)
                  - ((if 1 = m then 1 else 0) * (U 1 / U 0)
                      + (if 2 = m then 1 else 0) * (U 2 / U 0)
                      + (if 3 = m then 1 else 0) * (U 3 / U 0)))
              * g.coord k))
      (U m) := by
  have h0 : ¬ (0 = m) := by omega
  have h := specFullResidual_hasDerivAt U gamma g k m hrho
  simp only [if_neg h0] at h
  convert h using 1
  simp only [velocity, momentum, RealVectorValue.dot]
  generalize (if k + 1 = m then (1 : ℝ) else 0) = d
  generalize (if 1 = m then (1 : ℝ) else 0) = d1
  generalize (if 2 = m then (1 : ℝ) else 0) = d2
  generalize (if 3 = m then (1 : ℝ) else 0) = d3
  generalize (if 4 = m then (1 : ℝ) else 0) = d4
  field_simp
  ring

/-- The helper at a momentum or energy index, at the kernel data of a conserved state,
written with Kronecker deltas. -/
theorem computeJacobianHelper_ofConserved (U : Nat → ℝ) (gamma : ℝ) (g : RealVectorValue ℝ)
    (phi : ℝ) (mapVarNumber : Nat → Nat) (k m : Nat) (hk : k < 3) (h1 : 1 ≤ m) (h4 : m ≤ 4) :
    computeJacobianHelper (ofConserved U k gamma g phi mapVarNumber) m
      = some (-((if k + 1 = m then 1 else 0) * ((velocity U).dot g)
          + U (k + 1) / U 0
              * ((if 1 = m then 1 else 0) * g.x + (if 2 = m then 1 else 0) * g.y
                  + (if 3 = m then 1 else 0) * g.z)
          + (gamma - 1)
              * ((if 4 = m then 1 else 0)
                  - ((if 1 = m then 1 else 0) * (U 1 / U 0)
                      + (if 2 = m then 1 else 0) * (U 2 / U 0)
                      + (if 3 = m then 1 else 0) * (U 3 / U 0)))
              * g.coord k) * phi) := by
  have hvel : (ofConserved U k gamma g phi mapVarNumber).vel = velocity U := rfl
  have hg : (ofConserved U k gamma g phi mapVarNumber).grad_test = g := rfl
  have hc : (ofConserved U k gamma g phi mapVarNumber).component = k := rfl
  have hgam : (ofConserved U k gamma g phi mapVarNumber).gamma = gamma := rfl
  have hphi : (ofConserved U k gamma g phi mapVarNumber).phi = phi := rfl
  rcases Nat.lt_or_ge m 4 with h | h
  · rw [computeJacobianHelper_momentum _ _ h1 (by omega), hvel, hg, hc, hgam, hphi,
      coord_velocity U k hk]
    interval_cases m <;>
      simp only [RealVectorValue.coord, velocity, reduceIte, Nat.reduceAdd, Nat.reduceSub,
        Nat.reduceEqDiff, add_left_eq_self] <;>
      congr 1 <;> ring
  · obtain rfl : m = 4 := by omega
    rw [computeJacobianHelper_energy, hg, hc, hgam, hphi]
    have hk4 : ¬ (k = 3) := by omega
    simp only [reduceIte, Nat.reduceEqDiff, if_neg hk4]
    congr 1
    ring

/-- C10: the Jacobian entries are those of the full inviscid momentum flux with
ideal-gas pressure: for `k` in `{0,1,2}`, `rho ≠ 0` and `m` in `{1,2,3,4}`,
`computeJacobianHelper m = (dR_full/dU_m) * phi_j`; and
`computeJacobianHelper 0 = u_k*(u . g) - (gamma - 1)/2 * |u|^2 * g_k`. -/
theorem computeJacobianHelper_full_flux (U : Nat → ℝ) (gamma : ℝ) (g : RealVectorValue ℝ)
    (phi : ℝ) (mapVarNumber : Nat → Nat) (k : Nat) (hk : k < 3) (hrho : U 0 ≠ 0) :
    (∀ m : Nat, 1 ≤ m → m ≤ 4 →
        ∃ D, HasDerivAt (fun t => specFullResidual gamma k g (Function.update U m t)) D (U m)
          ∧ computeJacobianHelper (ofConserved U k gamma g phi mapVarNumber) m
              = some (D * phi))
      ∧ computeJacobianHelper (ofConserved U k gamma g phi mapVarNumber) 0
          = some ((velocity U).coord k * ((velocity U).dot g)
                  - (gamma - 1) / 2 * (velocity U).norm_sq * g.coord k) := by
  constructor
  · intro m h1 h4
    exact ⟨_, specFullResidual_hasDerivAt_pos U gamma g k m h1 hrho,
      computeJacobianHelper_ofConserved U gamma g phi mapVarNumber k m hk h1 h4⟩
  · simp only [computeJacobianHelper, ofConserved, velocity]
    congr 1
    ring

end NSMomentumInviscidFluxWithoutP

namespace NSMomentumInviscidFluxWithoutP

open libMesh

/-- The residual of the code, at the kernel data of a conserved state, is the
pressure-free residual as the specification writes it. -/
theorem computeQpResidual_ofConserved {α : Type} [LinearOrderedField α] (U : Nat → α)
    (k : Nat) (gamma : α) (g : RealVectorValue α) (phi : α) (mapVarNumber : Nat → Nat) :
    computeQpResidual (ofConserved U k gamma g phi mapVarNumber) = specResidual k g U := by
  simp only [computeQpResidual, ofConserved, specResidual, momentum, RealVectorValue.dot]
  ring

/-- The pressure-free residual does not depend on the energy `U_4`. -/
theorem specResidual_hasDerivAt_energy (U : Nat → ℝ) (g : RealVectorValue ℝ) (k : Nat)
    (hk : k < 3) :
    HasDerivAt (fun t => specResidual k g (Function.update U 4 t)) 0 (U 4) := by
  have hconst : (fun t => specResidual k g (Function.update U 4 t))
      = fun _ => specResidual k g U := by
    funext t
    have hk4 : k + 1 ≠ 4 := by omega
    have h0 : (0 : Nat) ≠ 4 := by decide
    have h1 : (1 : Nat) ≠ 4 := by decide
    have h2 : (2 : Nat) ≠ 4 := by decide
    have h3 : (3 : Nat) ≠ 4 := by decide
    simp only [specResidual, momentum, Function.update_noteq hk4, Function.update_noteq h0,
      Function.update_noteq h1, Function.update_noteq h2, Function.update_noteq h3]
  rw [hconst]
  exact hasDerivAt_const _ _

/-- The energy entry of the helper is the energy derivative of the pressure-free residual
times `phi_j` exactly when `(gamma - 1) * phi_j * g_k = 0`. -/
theorem computeJacobianHelper_energy_eq_iff (U : Nat → ℝ) (gamma : ℝ)
    (g : RealVectorValue ℝ) (phi : ℝ) (mapVarNumber : Nat → Nat) (k : Nat) (hk : k < 3) :
    (∃ D : ℝ, HasDerivAt (fun t => specResidual k g (Function.update U 4 t)) D (U 4)
        ∧ computeJacobianHelper (ofConserved U k gamma g phi mapVarNumber) 4 = some (D * phi))
      ↔ (gamma - 1) * phi * g.coord k = 0 := by
  have hd := specResidual_hasDerivAt_energy U g k hk
  have hval : computeJacobianHelper (ofConserved U k gamma g phi mapVarNumber) 4
      = some (-1 * (gamma - 1) * phi * g.coord k) := rfl
  constructor
  · rintro ⟨D, hD, hJ⟩
    have hD0 : D = 0 := hD.unique hd
    rw [hval, hD0, Option.some.injEq] at hJ
    linarith
  · intro h
    refine ⟨0, hd, ?_⟩
    rw [hval]
    congr 1
    linarith

/-- C5, evaluation at component `0`, state `(2, 2, 4, 6, 5)`, `gamma = 7/5`,
`g = (1, 2, 3)`, `phi_j = 1`: the pressure-free residual has derivative `0` with respect
to the energy `U_4`, while `computeJacobianHelper 4` returns `-2/5`; so the energy entry
is not the derivative of the residual times `phi_j`. -/
theorem computeJacobianHelper_energy_sample :
    HasDerivAt
        (fun t => specResidual 0 ⟨1, 2, 3⟩ (Function.update (sampleState ℝ) 4 t)) 0
        (sampleState ℝ 4)
      ∧ computeJacobianHelper (sampleKernel ℝ 0 1) 4 = some (-2 / 5)
      ∧ ¬ ∃ D : ℝ,
          HasDerivAt
              (fun t => specResidual 0 ⟨1, 2, 3⟩ (Function.update (sampleState ℝ) 4 t)) D
              (sampleState ℝ 4)
            ∧ computeJacobianHelper (sampleKernel ℝ 0 1) 4 = some (D * 1) := by
  have hd := specResidual_hasDerivAt_energy (sampleState ℝ) ⟨1, 2, 3⟩ 0 (by norm_num)
  have hval : computeJacobianHelper (sampleKernel ℝ 0 1) 4 = some (-2 / 5) := by
    rw [computeJacobianHelper_energy]
    simp only [sampleKernel, ofConserved, RealVectorValue.coord]
    norm_num
  refine ⟨hd, hval, ?_⟩
  rintro ⟨D, hD, hJ⟩
  have hD0 : D = 0 := hD.unique hd
  rw [hval, hD0] at hJ
  norm_num at hJ

end NSMomentumInviscidFluxWithoutP

namespace PFFracBulkRateNobLimited

variable {α : Type} [LinearOrderedField α]

/-- The loop leaves the function through `return 0.0` as soon as two distinct
displacement variables are coupled, whatever `jvar` is. -/
theorem dispLoop_of_two_distinct (jvar a b : Nat) (rest : List Nat) (k : Nat)
    (st : Nat × Bool) (hab : a ≠ b) :
    dispLoop jvar (a :: b :: rest) k st = none := by
  by_cases h : jvar = a
  · have hb : ¬ jvar = b := fun h2 => hab (h.symm.trans h2)
    simp only [dispLoop, if_pos h, if_neg hb]
  · simp only [dispLoop, if_neg h]

/-- With two or more pairwise distinct displacement variables the off-diagonal Jacobian
is `0` for every `jvar`. -/
theorem computeQpOffDiagJacobian_of_two_le (q : Kernel α) (jvar : Nat)
    (hn : 2 ≤ q.ndisp) (hd : q.disp_var.Nodup) :
    computeQpOffDiagJacobian q jvar = 0 := by
  rcases hl : q.disp_var with _ | ⟨a, _ | ⟨b, rest⟩⟩
  · simp [Kernel.ndisp, hl] at hn
  · simp [Kernel.ndisp, hl] at hn
  · have hab : a ≠ b := by
      rw [hl] at hd
      intro h
      simp [h] at hd
    simp only [computeQpOffDiagJacobian, hl, dispLoop_of_two_distinct jvar a b rest 0 _ hab]

/-- The accumulation loop of `val` computes the sum of its terms. -/
theorem dispVal_eq_sum (T : Nat → Nat → α) (grad_phi : Nat → α) (c_comp dim : Nat) :
    dispVal T grad_phi c_comp dim
      = ((List.range dim).map fun i => (T c_comp i + T i c_comp) / 2 * grad_phi i).sum := by
  unfold dispVal
  induction dim with
  | zero => simp
  | succ n ih => simp only [List.range_succ, List.foldl_append, List.foldl_cons,
      List.foldl_nil, List.map_append, List.map_cons, List.map_nil, List.sum_append,
      List.sum_cons, List.sum_nil, add_zero, ih]

/-- With exactly one displacement variable the off-diagonal Jacobian at that variable is
the displacement contribution of the specification. -/
theorem computeQpOffDiagJacobian_single (q : Kernel α) (d : Nat) (T : Nat → Nat → α)
    (hdisp : q.disp_var = [d]) (hT : q.dG0_pos_dstrain = some T)
    (hc0 : 0 < q.u) (hc1 : q.u < 1) :
    computeQpOffDiagJacobian q d = specDispJacobian q T 0 := by
  have hclamp : ¬ (q.u ≤ 0 ∨ q.u ≥ 1) := by
    push_neg
    exact ⟨hc0, hc1⟩
  have hx : q.l * (q.d2c_dx2 + q.d2c_dy2 + q.d2c_dz2) + 2 * (1 - q.u) * (q.G0_pos / q.gc_prop)
      - q.u / q.l = q.x := by
    simp only [Kernel.x, Kernel.beta]
    ring
  simp only [computeQpOffDiagJacobian, hdisp, dispLoop, if_true, hT, if_neg hclamp,
    dispVal_eq_sum, specDispJacobian, hx]

/-- C7, evaluation with two coupled displacements, variable numbers `0` and `1`, at
`c = 1/2`, `l = visco = gc = G0 = 1`, `beta = 0` (so `x = 1/2`), `dG0_dstrain` the
identity, `grad_phi_j = (1,1,1)`, `test_i = 1`: `computeQpOffDiagJacobian` returns `0` at
both displacement variables, where the displacement contribution `xfac * val * test_i`
is `-1`; with the first displacement alone the code does return `-1`. -/
theorem computeQpOffDiagJacobian_two_displacements_sample :
    computeQpOffDiagJacobian (sampleKernel ℝ (1 / 2) 1 [0, 1]) 0 = 0
      ∧ computeQpOffDiagJacobian (sampleKernel ℝ (1 / 2) 1 [0, 1]) 1 = 0
      ∧ specDispJacobian (sampleKernel ℝ (1 / 2) 1 [0, 1])
          (fun i j => if i = j then 1 else 0) 0 = -1
      ∧ specDispJacobian (sampleKernel ℝ (1 / 2) 1 [0, 1])
          (fun i j => if i = j then 1 else 0) 1 = -1
      ∧ computeQpOffDiagJacobian (sampleKernel ℝ (1 / 2) 1 [0]) 0 = -1 := by
  have hn : 2 ≤ (sampleKernel ℝ (1 / 2) 1 [0, 1]).ndisp := by
    simp [Kernel.ndisp, sampleKernel]
  have hd : (sampleKernel ℝ (1 / 2) 1 [0, 1]).disp_var.Nodup := by
    simp [sampleKernel]
  have hx : ∀ l : List Nat, (sampleKernel ℝ (1 / 2) 1 l).x = 1 / 2 := by
    intro l
    simp only [Kernel.x, Kernel.beta, sampleKernel]
    norm_num
  have hspec : ∀ (l : List Nat) (k : Nat), k < 3 →
      specDispJacobian (sampleKernel ℝ (1 / 2) 1 l) (fun i j => if i = j then 1 else 0) k
        = -1 := by
    intro l k hk
    simp only [specDispJacobian, hx, MathUtils.sign]
    simp only [sampleKernel]
    interval_cases k <;> norm_num [List.range_succ]
  refine ⟨computeQpOffDiagJacobian_of_two_le _ 0 hn hd,
    computeQpOffDiagJacobian_of_two_le _ 1 hn hd, hspec _ 0 (by norm_num),
    hspec _ 1 (by norm_num), ?_⟩
  rw [computeQpOffDiagJacobian_single (sampleKernel ℝ (1 / 2) 1 [0]) 0
    (fun i j => if i = j then 1 else 0) rfl rfl (by norm_num [sampleKernel])
    (by norm_num [sampleKernel])]
  exact hspec _ 0 (by norm_num)

end PFFracBulkRateNobLimited

/-! ## Instances at concrete inputs -/

namespace PFFracBulkRateNobLimited

/-- C2 at `c = 1/2`, `l = visco = gc = G0 = 1`, `beta = 0`, `phi_j = 1`, where
`x = 1/2`: the Jacobian is the derivative of the residual times `phi_j`, and is `3`. -/
theorem precomputeQpJacobian_is_derivative_witness :
    (0 < (sampleKernel ℝ (1 / 2) 1 []).u ∧ (sampleKernel ℝ (1 / 2) 1 []).u < 1
        ∧ (sampleKernel ℝ (1 / 2) 1 []).gc_prop ≠ 0 ∧ (sampleKernel ℝ (1 / 2) 1 []).l ≠ 0
        ∧ (sampleKernel ℝ (1 / 2) 1 []).visco ≠ 0 ∧ (sampleKernel ℝ (1 / 2) 1 []).x ≠ 0)
      ∧ (∃ D, HasDerivAt
              (fun c => precomputeQpResidual ((sampleKernel ℝ (1 / 2) 1 []).withU c)) D
              (sampleKernel ℝ (1 / 2) 1 []).u
            ∧ precomputeQpJacobian (sampleKernel ℝ (1 / 2) 1 [])
                = D * (sampleKernel ℝ (1 / 2) 1 []).phi)
      ∧ precomputeQpJacobian (sampleKernel ℝ (1 / 2) 1 []) = 3 :=
  have h0 : 0 < (sampleKernel ℝ (1 / 2) 1 []).u := by norm_num [sampleKernel]
  have h1 : (sampleKernel ℝ (1 / 2) 1 []).u < 1 := by norm_num [sampleKernel]
  have hgc : (sampleKernel ℝ (1 / 2) 1 []).gc_prop ≠ 0 := by norm_num [sampleKernel]
  have hl : (sampleKernel ℝ (1 / 2) 1 []).l ≠ 0 := by norm_num [sampleKernel]
  have hv : (sampleKernel ℝ (1 / 2) 1 []).visco ≠ 0 := by norm_num [sampleKernel]
  have hx : (sampleKernel ℝ (1 / 2) 1 []).x = 1 / 2 := by
    norm_num [sampleKernel, Kernel.x, Kernel.beta]
  have hx0 : (sampleKernel ℝ (1 / 2) 1 []).x ≠ 0 := by rw [hx]; norm_num
  have hpos : 0 < (sampleKernel ℝ (1 / 2) 1 []).x := by rw [hx]; norm_num
  ⟨⟨h0, h1, hgc, hl, hv, hx0⟩,
    (precomputeQpJacobian_is_derivative (sampleKernel ℝ (1 / 2) 1 []) h0 h1 hgc hl hv hx0).1,
    by
      rw [(precomputeQpJacobian_is_derivative (sampleKernel ℝ (1 / 2) 1 []) h0 h1 hgc hl hv
        hx0).2.1 hpos]
      norm_num [sampleKernel]⟩

/-- C3 at `c = 2/3`, `l = visco = gc = G0 = 1`, `beta = 0`, `phi_j = 1`, where `x = 0`,
with `sign 0 = 1`. -/
theorem precomputeQpJacobian_subgradient_witness :
    (sampleKernel ℝ (2 / 3) 1 []).x = 0
      ∧ ((∃ t : ℝ, 0 ≤ t ∧ t ≤ 1 ∧
            precomputeQpJacobian (sampleKernel ℝ (2 / 3) 1 [])
              = t * (2 * (sampleKernel ℝ (2 / 3) 1 []).G0_pos
                      / (sampleKernel ℝ (2 / 3) 1 []).gc_prop
                    + 1 / (sampleKernel ℝ (2 / 3) 1 []).l)
                  / (sampleKernel ℝ (2 / 3) 1 []).visco
                  * (sampleKernel ℝ (2 / 3) 1 []).phi)
          ∧ ∃ DL DR : ℝ,
              HasDerivWithinAt
                  (fun c => precomputeQpResidual ((sampleKernel ℝ (2 / 3) 1 []).withU c)) DL
                  (Set.Iic (sampleKernel ℝ (2 / 3) 1 []).u) (sampleKernel ℝ (2 / 3) 1 []).u
              ∧ HasDerivWithinAt
                  (fun c => precomputeQpResidual ((sampleKernel ℝ (2 / 3) 1 []).withU c)) DR
                  (Set.Ici (sampleKernel ℝ (2 / 3) 1 []).u) (sampleKernel ℝ (2 / 3) 1 []).u
              ∧ precomputeQpJacobian (sampleKernel ℝ (2 / 3) 1 [])
                  ∈ Set.uIcc (DL * (sampleKernel ℝ (2 / 3) 1 []).phi)
                      (DR * (sampleKernel ℝ (2 / 3) 1 []).phi)) :=
  have hx : (sampleKernel ℝ (2 / 3) 1 []).x = 0 := by
    norm_num [sampleKernel, Kernel.x, Kernel.beta]
  ⟨hx, precomputeQpJacobian_subgradient (sampleKernel ℝ (2 / 3) 1 [])
    (by norm_num [sampleKernel]) (by norm_num [sampleKernel]) hx (Or.inr (Or.inr rfl))⟩

end PFFracBulkRateNobLimited

namespace NSMomentumInviscidFluxWithoutP

open libMesh

/-- C4 at component `0` of the state `(2, 2, 4, 6, 5)` with `g = (1, 2, 3)`: there
`U_k = 2 = rho * u_k` with `rho = 2`, `u_k = 1`, and the residual is `-28`. -/
theorem computeQpResidual_spec_witness :
    (sampleKernel ℝ 0 1).u = 2 * 1
      ∧ computeQpResidual (sampleKernel ℝ 0 1) = -28
      ∧ computeQpResidual (sampleKernel ℝ 0 1)
          = -((⟨2 * (sampleKernel ℝ 0 1).u_vel * 1, 2 * (sampleKernel ℝ 0 1).v_vel * 1,
                2 * (sampleKernel ℝ 0 1).w_vel * 1⟩ : RealVectorValue ℝ).dot
              (sampleKernel ℝ 0 1).grad_test) :=
  have hu : (sampleKernel ℝ 0 1).u = 2 * 1 := by
    norm_num [sampleKernel, ofConserved, sampleState]
  ⟨hu, by
    rw [(computeQpResidual_spec (sampleKernel ℝ 0 1)).1]
    norm_num [sampleKernel, ofConserved, sampleState],
    (computeQpResidual_spec (sampleKernel ℝ 0 1)).2.2.2 2 1 hu⟩

/-- C6 at component `1` of the state `(2, 2, 4, 6, 5)` with `gamma = 7/5`,
`g = (1, 2, 3)`, `phi_j = 1`: the diagonal entry is `-82/5`. -/
theorem computeQpJacobian_diag_witness :
    (sampleKernel ℝ 1 1).component < 3
      ∧ computeQpJacobian (sampleKernel ℝ 1 1) = some (-82 / 5) :=
  have hk : (sampleKernel ℝ 1 1).component < 3 := by
    simp only [sampleKernel, ofConserved]
    norm_num
  ⟨hk, by
    rw [(computeQpJacobian_diag (sampleKernel ℝ 1 1) hk).1,
      (computeQpJacobian_diag (sampleKernel ℝ 1 1) hk).2.1]
    simp only [sampleKernel, ofConserved, Kernel.vel, RealVectorValue.coord,
      RealVectorValue.dot, sampleState]
    norm_num⟩

/-- C8 at component `2`: the diagonal Jacobian returns a value. -/
theorem computeJacobianHelper_error_iff_witness :
    (sampleKernel ℝ 2 1).component < 3
      ∧ (∃ v, computeQpJacobian (sampleKernel ℝ 2 1) = some v)
      ∧ computeJacobianHelper (sampleKernel ℝ 2 1) 5 = none :=
  have hk : (sampleKernel ℝ 2 1).component < 3 := by
    simp only [sampleKernel, ofConserved]
    norm_num
  ⟨hk, (computeJacobianHelper_error_iff (sampleKernel ℝ 2 1)).2.2 hk,
    ((computeJacobianHelper_error_iff (sampleKernel ℝ 2 1)).1 5).mpr (by norm_num)⟩

/-- C10 at component `0` of the state `(2, 2, 4, 6, 5)` with `gamma = 7/5`,
`g = (1, 2, 3)`, `phi_j = 1`, for the energy variable `m = 4`. -/
theorem computeJacobianHelper_full_flux_witness :
    sampleState ℝ 0 ≠ 0
      ∧ ∃ D, HasDerivAt
            (fun t => specFullResidual (7 / 5) 0 ⟨1, 2, 3⟩
              (Function.update (sampleState ℝ) 4 t)) D (sampleState ℝ 4)
          ∧ computeJacobianHelper (sampleKernel ℝ 0 1) 4 = some (D * 1) :=
  have hrho : sampleState ℝ 0 ≠ 0 := by norm_num [sampleState]
  ⟨hrho, (computeJacobianHelper_full_flux (sampleState ℝ) (7 / 5) ⟨1, 2, 3⟩ 1 id 0
    (by norm_num) hrho).1 4 (by norm_num) (by norm_num)⟩

end NSMomentumInviscidFluxWithoutP

/-! ## Linearity in the trial function, clamp and sign of the damage rate -/

namespace NSMomentumInviscidFluxWithoutP

open libMesh

variable {α : Type} [LinearOrderedField α]

/-- The momentum and energy entries of the helper are `phi_j` times a factor in which
`phi_j` does not occur. -/
theorem computeJacobianHelper_linear_in_phi (q : Kernel α) (m : Nat) (h1 : 1 ≤ m)
    (h4 : m ≤ 4) :
    ∃ f : α, ∀ p : α, computeJacobianHelper { q with phi := p } m = some (p * f) := by
  rcases Nat.lt_or_ge m 4 with h | h
  · refine ⟨-1 * (q.vel.coord q.component * q.grad_test.coord (m - 1)
        + (if q.component = m - 1 then 1 else 0) * (q.vel.dot q.grad_test)
        + (1 - q.gamma) * q.vel.coord (m - 1) * q.grad_test.coord q.component), fun p => ?_⟩
    rw [computeJacobianHelper_momentum _ m h1 (by omega)]
    simp only [Kernel.vel]
    congr 1
    ring
  · obtain rfl : m = 4 := by omega
    refine ⟨-1 * (q.gamma - 1) * q.grad_test.coord q.component, fun p => ?_⟩
    rw [computeJacobianHelper_energy]
    congr 1
    ring

/-- The density entry of the helper does not read `phi_j`. -/
theorem computeJacobianHelper_density_indep_phi (q : Kernel α) (p : α) :
    computeJacobianHelper { q with phi := p } 0 = computeJacobianHelper q 0 :=
  rfl

/-- The density entry of the helper, in terms of the velocity vector. -/
theorem computeJacobianHelper_density (q : Kernel α) :
    computeJacobianHelper q 0
      = some (q.vel.coord q.component * (q.vel.dot q.grad_test)
              - 1 / 2 * (q.gamma - 1) * q.vel.norm_sq * q.grad_test.coord q.component) :=
  rfl

/-- C11, evaluation at component `0`, velocity `(1, 2, 3)`, `gamma = 7/5`,
`g = (1, 2, 3)` and `phi_j = 0`: the momentum and energy entries `m = 1, 2, 3, 4` are `0`,
the density entry `m = 0` is `56/5`; the density entry is the same for `phi_j = 1`, so it
is not `phi_j` times a factor. -/
theorem computeJacobianHelper_density_sample :
    computeJacobianHelper (sampleKernel ℝ 0 0) 0 = some (56 / 5)
      ∧ computeJacobianHelper (sampleKernel ℝ 0 1) 0 = some (56 / 5)
      ∧ computeJacobianHelper (sampleKernel ℝ 0 0) 1 = some 0
      ∧ computeJacobianHelper (sampleKernel ℝ 0 0) 2 = some 0
      ∧ computeJacobianHelper (sampleKernel ℝ 0 0) 3 = some 0
      ∧ computeJacobianHelper (sampleKernel ℝ 0 0) 4 = some 0
      ∧ ¬ ∃ f : ℝ, ∀ p : ℝ, computeJacobianHelper (sampleKernel ℝ 0 p) 0 = some (p * f) := by
  have hdens : ∀ p : ℝ, computeJacobianHelper (sampleKernel ℝ 0 p) 0 = some (56 / 5) := by
    intro p
    rw [computeJacobianHelper_density]
    simp only [sampleKernel, ofConserved, Kernel.vel, RealVectorValue.coord,
      RealVectorValue.dot, RealVectorValue.norm_sq, sampleState]
    norm_num
  have hmom : ∀ m : Nat, 1 ≤ m → m ≤ 3 →
      computeJacobianHelper (sampleKernel ℝ 0 0) m = some 0 := by
    intro m h1 h3
    rw [computeJacobianHelper_momentum _ m h1 h3]
    have hphi : (sampleKernel ℝ 0 0).phi = 0 := rfl
    rw [hphi, mul_zero]
  have hen : computeJacobianHelper (sampleKernel ℝ 0 0) 4 = some 0 := by
    rw [computeJacobianHelper_energy]
    have hphi : (sampleKernel ℝ 0 0).phi = 0 := rfl
    rw [hphi, mul_zero, zero_mul]
  refine ⟨hdens 0, hdens 1, hmom 1 (by norm_num) (by norm_num),
    hmom 2 (by norm_num) (by norm_num), hmom 3 (by norm_num) (by norm_num), hen, ?_⟩
  rintro ⟨f, hf⟩
  have h0 := hf 0
  rw [hdens 0, zero_mul, Option.some.injEq] at h0
  norm_num at h0

end NSMomentumInviscidFluxWithoutP

namespace PFFracBulkRateNobLimited

variable {α : Type} [LinearOrderedField α]

/-- Under the clamp the off-diagonal Jacobian is `0`, whichever way the function is
left. -/
theorem computeQpOffDiagJacobian_of_clamp (q : Kernel α) (jvar : Nat)
    (h : q.u ≤ 0 ∨ q.u ≥ 1) : computeQpOffDiagJacobian q jvar = 0 := by
  unfold computeQpOffDiagJacobian
  rcases dispLoop jvar q.disp_var 0 (0, false) with _ | ⟨c_comp, flag⟩
  · rfl
  · rcases flag with _ | _ <;> rcases q.dG0_pos_dstrain with _ | T <;> simp [h]

/-- Without the tensor `dG0_dstrain` the off-diagonal Jacobian is `0`. -/
theorem computeQpOffDiagJacobian_of_no_tensor (q : Kernel α) (jvar : Nat)
    (h : q.dG0_pos_dstrain = none) : computeQpOffDiagJacobian q jvar = 0 := by
  unfold computeQpOffDiagJacobian
  rw [h]
  rcases dispLoop jvar q.disp_var 0 (0, false) with _ | ⟨c_comp, flag⟩
  · rfl
  · rcases flag with _ | _ <;> rfl

/-- At a variable that is no coupled displacement the off-diagonal Jacobian is `0`: with
no displacement the flag stays unset, otherwise the first comparison fails. -/
theorem computeQpOffDiagJacobian_of_not_mem (q : Kernel α) (jvar : Nat)
    (h : jvar ∉ q.disp_var) : computeQpOffDiagJacobian q jvar = 0 := by
  unfold computeQpOffDiagJacobian
  rcases hl : q.disp_var with _ | ⟨d, ds⟩
  · simp only [dispLoop]
  · have hne : ¬ jvar = d := by
      intro hjd
      apply h
      rw [hl, hjd]
      exact List.mem_cons_self d ds
    simp only [dispLoop, if_neg hne]

/-- C12: for `c ≤ 0` or `c ≥ 1`, `precomputeQpJacobian` returns `0` and
`computeQpOffDiagJacobian jvar` returns `0` for every `jvar`; so where
`precomputeQpResidual` is `0` by the clamp, all its Jacobian entries are `0` too. -/
theorem damage_clamp_consistent (q : Kernel α) (h : q.u ≤ 0 ∨ q.u ≥ 1) :
    precomputeQpResidual q = 0
      ∧ precomputeQpJacobian q = 0
      ∧ ∀ jvar : Nat, computeQpOffDiagJacobian q jvar = 0 := by
  refine ⟨?_, ?_, fun jvar => computeQpOffDiagJacobian_of_clamp q jvar h⟩
  · rw [precomputeQpResidual_eq, if_pos h]
  · rw [precomputeQpJacobian_eq, if_pos h]

/-- C13: `computeQpOffDiagJacobian jvar` returns `0` for every `jvar` that is not one of
the coupled displacement variables, for every `jvar` when no displacement is coupled
(`ndisp = 0`), and for every `jvar` when `dG0_dstrain` is not supplied. -/
theorem computeQpOffDiagJacobian_zero_cases (q : Kernel α) :
    (∀ jvar : Nat, jvar ∉ q.disp_var → computeQpOffDiagJacobian q jvar = 0)
      ∧ (q.ndisp = 0 → ∀ jvar : Nat, computeQpOffDiagJacobian q jvar = 0)
      ∧ (q.dG0_pos_dstrain = none → ∀ jvar : Nat, computeQpOffDiagJacobian q jvar = 0) := by
  refine ⟨fun jvar h => computeQpOffDiagJacobian_of_not_mem q jvar h, fun h0 jvar => ?_,
    fun h jvar => computeQpOffDiagJacobian_of_no_tensor q jvar h⟩
  have hnil : q.disp_var = [] := List.length_eq_zero.mp h0
  exact computeQpOffDiagJacobian_of_not_mem q jvar (by rw [hnil]; exact List.not_mem_nil jvar)

/-- C14: for `visco > 0` the value of `precomputeQpResidual` is `≤ 0`, and it is `0`
whenever `x ≤ 0` or `c` is outside the open interval `(0, 1)`. -/
theorem precomputeQpResidual_nonpos (q : Kernel α) (hv : 0 < q.visco) :
    precomputeQpResidual q ≤ 0
      ∧ (q.x ≤ 0 ∨ q.u ≤ 0 ∨ q.u ≥ 1 → precomputeQpResidual q = 0) := by
  rw [precomputeQpResidual_eq]
  constructor
  · split_ifs with h
    · exact le_refl 0
    · exact div_nonpos_of_nonpos_of_nonneg (neg_nonpos.mpr (le_max_right _ _)) hv.le
  · rintro (hx | hc)
    · rw [max_eq_right hx, neg_zero, zero_div, ite_self]
    · rw [if_pos hc]

end PFFracBulkRateNobLimited

namespace PFFracBulkRateNobLimited

/-- C12 at `c = 3/2` with one coupled displacement, variable number `0`, and
`dG0_dstrain` supplied: the residual, the diagonal Jacobian and the off-diagonal
Jacobian at the displacement variable are all `0`. -/
theorem damage_clamp_consistent_witness :
    ((sampleKernel ℝ (3 / 2) 1 [0]).u ≤ 0 ∨ (sampleKernel ℝ (3 / 2) 1 [0]).u ≥ 1)
      ∧ precomputeQpResidual (sampleKernel ℝ (3 / 2) 1 [0]) = 0
      ∧ precomputeQpJacobian (sampleKernel ℝ (3 / 2) 1 [0]) = 0
      ∧ computeQpOffDiagJacobian (sampleKernel ℝ (3 / 2) 1 [0]) 0 = 0 :=
  have h : (sampleKernel ℝ (3 / 2) 1 [0]).u ≤ 0 ∨ (sampleKernel ℝ (3 / 2) 1 [0]).u ≥ 1 :=
    Or.inr (by norm_num [sampleKernel])
  ⟨h, (damage_clamp_consistent (sampleKernel ℝ (3 / 2) 1 [0]) h).1,
    (damage_clamp_consistent (sampleKernel ℝ (3 / 2) 1 [0]) h).2.1,
    (damage_clamp_consistent (sampleKernel ℝ (3 / 2) 1 [0]) h).2.2 0⟩

/-- C13 at `c = 1/2`: at variable `5` with the displacement variable `0` coupled, at
variable `0` with no displacement coupled, and at the displacement variable `0` without
`dG0_dstrain`, the off-diagonal Jacobian is `0`. -/
theorem computeQpOffDiagJacobian_zero_cases_witness :
    (5 ∉ (sampleKernel ℝ (1 / 2) 1 [0]).disp_var
        ∧ computeQpOffDiagJacobian (sampleKernel ℝ (1 / 2) 1 [0]) 5 = 0)
      ∧ ((sampleKernel ℝ (1 / 2) 1 []).ndisp = 0
        ∧ computeQpOffDiagJacobian (sampleKernel ℝ (1 / 2) 1 []) 0 = 0)
      ∧ computeQpOffDiagJacobian
          { sampleKernel ℝ (1 / 2) 1 [0] with dG0_pos_dstrain := none } 0 = 0 :=
  have hmem : 5 ∉ (sampleKernel ℝ (1 / 2) 1 [0]).disp_var := by
    simp [sampleKernel]
  have hnd : (sampleKernel ℝ (1 / 2) 1 []).ndisp = 0 := rfl
  ⟨⟨hmem, (computeQpOffDiagJacobian_zero_cases (sampleKernel ℝ (1 / 2) 1 [0])).1 5 hmem⟩,
    ⟨hnd, (computeQpOffDiagJacobian_zero_cases (sampleKernel ℝ (1 / 2) 1 [])).2.1 hnd 0⟩,
    (computeQpOffDiagJacobian_zero_cases
      { sampleKernel ℝ (1 / 2) 1 [0] with dG0_pos_dstrain := none }).2.2 rfl 0⟩

/-- C14 at `l = visco = gc = G0 = 1`, `beta = 0`: at `c = 1/2` (where `x = 1/2`) the
residual is `≤ 0`, and at `c = 3/4` (where `x = -1/4`) it is `0`. -/
theorem precomputeQpResidual_nonpos_witness :
    0 < (sampleKernel ℝ (1 / 2) 1 []).visco
      ∧ precomputeQpResidual (sampleKernel ℝ (1 / 2) 1 []) ≤ 0
      ∧ (sampleKernel ℝ (3 / 4) 1 []).x ≤ 0
      ∧ precomputeQpResidual (sampleKernel ℝ (3 / 4) 1 []) = 0 :=
  have hv : 0 < (sampleKernel ℝ (1 / 2) 1 []).visco := by norm_num [sampleKernel]
  have hv2 : 0 < (sampleKernel ℝ (3 / 4) 1 []).visco := by norm_num [sampleKernel]
  have hx : (sampleKernel ℝ (3 / 4) 1 []).x ≤ 0 := by
    norm_num [sampleKernel, Kernel.x, Kernel.beta]
  ⟨hv, (precomputeQpResidual_nonpos (sampleKernel ℝ (1 / 2) 1 []) hv).1, hx,
    (precomputeQpResidual_nonpos (sampleKernel ℝ (3 / 4) 1 []) hv2).2 (Or.inl hx)⟩

end PFFracBulkRateNobLimited
